import Mathlib

/-!
Verification of the konsolai-bridge session registry, hook-event handler,
hook listener and WebSocket broadcaster, as a shallow embedding of
`konsolai_bridge/session_registry.py`, `main.py`, `hook_listener.py`,
`tmux.py` and `routes/websocket.py`.

Modelling conventions:
* Python dicts become association lists `List (String × _)`; lookup is
  first-match (`find?`), matching unique-key dicts produced by `json.loads`.
* JSON values are an inductive `Json` type (arrays omitted from the object
  field grammar only where never consulted; a standalone array still exists).
* ISO-8601 datetime strings are abstracted as positive integer timestamps
  carried as JSON numbers: `datetime.fromisoformat` is library code outside
  the repository, falsy or unparseable values yield `none` exactly as
  `_parse_dt` yields `None`.  `datetime.min` is then the timestamp `0`.
* Fields declared as `str` in the pydantic models are read with `getStrD`;
  a non-string value of such a field makes pydantic model construction raise
  in the source (no result is produced), so those records are outside every
  claim's scope and the accessor returns the default for them.
* `async` functions are pure state-passing functions: cooperative
  single-threaded scheduling means each modelled operation runs atomically
  between suspension points; for the broadcaster the lock discipline is
  additionally modelled as an explicit action trace.
-/

/-- A JSON value, as produced by `json.loads`. -/
inductive Json where
  | null : Json
  | bool (b : Bool) : Json
  | num (n : Int) : Json
  | str (s : String) : Json
  | arr (elems : List Json) : Json
  | obj (fields : List (String × Json)) : Json

/-- `ClaudeState` from `models.py` (mirrors ClaudeProcess::State). -/
inductive ClaudeState where
  | notRunning
  | starting
  | idle
  | working
  | waitingInput
  | error
deriving DecidableEq, Repr

/-- `_parse_state` from `session_registry.py`: convert a C++ state string to
the enum, defaulting to NOT_RUNNING for unknown strings. -/
def parse_state (raw : String) : ClaudeState :=
  if raw = "NotRunning" then .notRunning
  else if raw = "Starting" then .starting
  else if raw = "Idle" then .idle
  else if raw = "Working" then .working
  else if raw = "WaitingInput" then .waitingInput
  else if raw = "WaitingForInput" then .waitingInput
  else if raw = "Error" then .error
  else .notRunning

/-- A persisted session record: the JSON object for one session in
`sessions.json`, kept as the raw dict exactly as `_read_persisted` returns
its values. -/
abbrev Meta := List (String × Json)

/-- Python `meta.get(k)`: first value bound to key `k`, if any. -/
def metaGet (m : Meta) (k : String) : Option Json :=
  (m.find? (fun p => p.1 == k)).map (fun p => p.2)

/-- Python `meta.get(k, d)` for a string-typed field (see header note on
non-string values of pydantic `str` fields). -/
def getStrD (m : Meta) (k d : String) : String :=
  match metaGet m k with
  | some (Json.str s) => s
  | _ => d

/-- Python `meta.get(k, d)` for an int-typed field. -/
def getIntD (m : Meta) (k : String) (d : Int) : Int :=
  match metaGet m k with
  | some (Json.num n) => n
  | _ => d

/-- Python `meta.get(k, d)` for a bool-typed field. -/
def getBoolD (m : Meta) (k : String) (d : Bool) : Bool :=
  match metaGet m k with
  | some (Json.bool b) => b
  | _ => d

/-- Python `meta.get(k, {})` for a nested object field. -/
def getObjD (m : Meta) (k : String) : Meta :=
  match metaGet m k with
  | some (Json.obj o) => o
  | _ => []

/-- `_parse_dt` from `session_registry.py`, under the timestamp abstraction:
a valid ISO-8601 string is a positive integer; `None`, falsy and unparseable
values give `none`. -/
def parse_dt (v : Option Json) : Option Nat :=
  match v with
  | some (Json.num n) => if 0 < n then some n.toNat else none
  | _ => none

/-- `TokenUsage` from `models.py`. -/
structure TokenUsage where
  input_tokens : Int := 0
  output_tokens : Int := 0
  cache_read_tokens : Int := 0
  cache_creation_tokens : Int := 0
deriving DecidableEq, Repr

/-- `YoloSettings` from `models.py`. -/
structure YoloSettings where
  yolo : Bool := false
  double_yolo : Bool := false
  triple_yolo : Bool := false
deriving DecidableEq, Repr

/-- `SessionRegistry._extract_tokens`. -/
def extract_tokens (meta : Meta) : TokenUsage :=
  let tok := getObjD meta "tokenUsage"
  { input_tokens := getIntD tok "inputTokens" 0
    output_tokens := getIntD tok "outputTokens" 0
    cache_read_tokens := getIntD tok "cacheReadTokens" 0
    cache_creation_tokens := getIntD tok "cacheCreationTokens" 0 }

/-- `SessionRegistry._extract_yolo`. -/
def extract_yolo (meta : Meta) : YoloSettings :=
  { yolo := getBoolD meta "yoloMode" false
    double_yolo := getBoolD meta "doubleYoloMode" false
    triple_yolo := getBoolD meta "tripleYoloMode" false }

/-- Character class `[0-9a-f]` of the session-name regex in `tmux.py`. -/
def isHexLower (c : Char) : Bool :=
  (decide ('0' ≤ c) && decide (c ≤ '9')) || (decide ('a' ≤ c) && decide (c ≤ 'f'))

/-- The anchored regex `konsolai-(.+)-([0-9a-f]{8})` from `tmux.py`, on
character lists.  Anchoring makes the split unique: the id group is the last
8 characters, preceded by a dash, and the (greedy, non-empty) profile group
is everything between the fixed stem and that dash.  `.` not matching a
newline is irrelevant: tmux names arrive one per line. -/
def sessionReMatchL (cs : List Char) : Option (List Char × List Char) :=
  if cs.take 9 = "konsolai-".toList then
    if 10 ≤ (cs.drop 9).length then
      match (cs.drop 9).drop ((cs.drop 9).length - 9) with
      | '-' :: h =>
        if h.all isHexLower then some ((cs.drop 9).take ((cs.drop 9).length - 9), h)
        else none
      | _ => none
    else none
  else none

/-- `_SESSION_RE.match(name)` with its two capture groups, on strings. -/
def sessionReMatch (s : String) : Option (String × String) :=
  (sessionReMatchL s.data).map (fun p => (String.mk p.1, String.mk p.2))

/-- One well-formed row of `tmux list-sessions -F` output, already split at
tabs and with the numeric columns converted: the tab framing and `int()`
conversions sit at the external tmux CLI boundary. -/
structure TmuxRaw where
  name : String
  width : Int := 0
  height : Int := 0
  created : Nat := 0
  attachedRaw : String := "0"
deriving DecidableEq, Repr

/-- `TmuxSessionInfo` from `tmux.py`. -/
structure TmuxSessionInfo where
  name : String
  profile : String := ""
  session_id : String := ""
  width : Int := 0
  height : Int := 0
  created : Nat := 0
  attached : Bool := false
deriving DecidableEq, Repr

/-- The dataclass constructor together with `__post_init__`: profile and
session id are filled in by re-matching the name against the regex. -/
def mkTmuxSessionInfo (row : TmuxRaw) : TmuxSessionInfo :=
  let base : TmuxSessionInfo :=
    { name := row.name, width := row.width, height := row.height,
      created := row.created, attached := row.attachedRaw ≠ "0" }
  match sessionReMatch row.name with
  | some (p, h) => { base with profile := p, session_id := h }
  | none => base

/-- `TmuxManager.list_sessions`: rows whose name fails the regex are
skipped; the rest become `TmuxSessionInfo` values. -/
def tmux_list_sessions (rows : List TmuxRaw) : List TmuxSessionInfo :=
  (rows.filter (fun row => (sessionReMatch row.name).isSome)).map mkTmuxSessionInfo

/-- `TmuxManager.session_exists`: `tmux has-session -t name`, abstracted as
exact name membership among the multiplexer's sessions. -/
def session_exists (rows : List TmuxRaw) (name : String) : Bool :=
  rows.any (fun row => row.name == name)

/-- `SessionSummary` from `models.py` (timestamps under the abstraction). -/
structure SessionSummary where
  name : String
  session_id : String
  profile : String
  state : ClaudeState := .notRunning
  needs_attention : Bool := false
  token_usage : TokenUsage := {}
  yolo : YoloSettings := {}
  created_at : Option Nat := none
  last_activity : Option Nat := none
deriving DecidableEq, Repr

/-- `SessionDetail` from `models.py`. -/
structure SessionDetail extends SessionSummary where
  working_dir : String := ""
  model : String := "default"
  auto_continue_prompt : String := ""
  approval_count : Int := 0
deriving DecidableEq, Repr

/-- The three state sources a `SessionRegistry` call sees: the parsed
`sessions.json` dict (the result of `_read_persisted`), the multiplexer's
session table, and the in-memory `_state_cache` overlay. -/
structure RegistryState where
  persisted : List (String × Meta)
  tmuxRows : List TmuxRaw
  stateCache : List (String × ClaudeState)

/-- Python `persisted.get(name)`. -/
def persistedGet (p : List (String × Meta)) (name : String) : Option Meta :=
  (p.find? (fun q => q.1 == name)).map (fun q => q.2)

/-- Python `self._state_cache.get(name)`. -/
def cacheGet (c : List (String × ClaudeState)) (name : String) : Option ClaudeState :=
  (c.find? (fun q => q.1 == name)).map (fun q => q.2)

/-- Python dict assignment `d[k] = v`: overwrite in place, else append. -/
def dictInsert (c : List (String × ClaudeState)) (k : String) (v : ClaudeState) :
    List (String × ClaudeState) :=
  if c.any (fun q => q.1 == k) then
    c.map (fun q => if q.1 == k then (k, v) else q)
  else c ++ [(k, v)]

/-- `SessionRegistry.update_state`: sole overlay mutator. -/
def update_state (r : RegistryState) (session_name : String) (state : ClaudeState) :
    RegistryState :=
  { r with stateCache := dictInsert r.stateCache session_name state }

/-- The `state in (WAITING_INPUT, ERROR)` test inlined at both call sites. -/
def needsAttentionOf (st : ClaudeState) : Bool :=
  st == .waitingInput || st == .error

/-- The summary built for one live tmux session in
`SessionRegistry.list_sessions`. -/
def liveSummary (r : RegistryState) (info : TmuxSessionInfo) : SessionSummary :=
  let meta := (persistedGet r.persisted info.name).getD []
  let state := (cacheGet r.stateCache info.name).getD (parse_state (getStrD meta "state" ""))
  { name := info.name
    session_id := info.session_id
    profile := info.profile
    state := state
    needs_attention := needsAttentionOf state
    token_usage := extract_tokens meta
    yolo := extract_yolo meta
    created_at := if info.created = 0 then none else some info.created
    last_activity := parse_dt (metaGet meta "lastActivity") }

/-- The summary built for one persisted-but-not-live session in
`SessionRegistry.list_sessions`. -/
def persistedSummary (name : String) (meta : Meta) : SessionSummary :=
  { name := name
    session_id := getStrD meta "sessionId" ""
    profile := getStrD meta "profile" ""
    state := .notRunning
    needs_attention := false
    token_usage := extract_tokens meta
    yolo := extract_yolo meta
    created_at := parse_dt (metaGet meta "createdAt")
    last_activity := parse_dt (metaGet meta "lastActivity") }

/-- The sort key comparison of `results.sort(key=lambda s: (not
s.needs_attention, s.last_activity or datetime.min), reverse=False)`:
lexicographic order on the tuple, `False < True` on the first component. -/
def summaryKeyLe (a b : SessionSummary) : Bool :=
  (!a.needs_attention == false && !b.needs_attention == true) ||
    (!a.needs_attention == !b.needs_attention &&
      a.last_activity.getD 0 ≤ b.last_activity.getD 0)

/-- The tuple-key order as a decidable relation. -/
def summaryLe (a b : SessionSummary) : Prop :=
  summaryKeyLe a b = true

instance : DecidableRel summaryLe := fun a b => decEq (summaryKeyLe a b) true

/-- `SessionRegistry.list_sessions`: merge live and persisted sources, then
sort with the tuple key.  `list.sort` is a stable ascending sort by key;
insertion sort from the right, placing each element before the first
key-greater-or-equal one, computes exactly that stable sort. -/
def list_sessions (r : RegistryState) : List SessionSummary :=
  let live := tmux_list_sessions r.tmuxRows
  let liveNames := live.map (fun i => i.name)
  let liveResults := live.map (liveSummary r)
  let persistedOnly :=
    (r.persisted.filter (fun p => !(liveNames.contains p.1))).map
      (fun p => persistedSummary p.1 p.2)
  (liveResults ++ persistedOnly).insertionSort summaryLe

/-- Python `str.split("-")` on character lists: maximal groups between
dashes; the empty string yields one empty group. -/
def splitDashL : List Char → List (List Char)
  | [] => [[]]
  | c :: rest =>
    match splitDashL rest with
    | [] => [[]]
    | g :: gs => if c = '-' then [] :: g :: gs else (c :: g) :: gs

/-- Python `name.split("-")`. -/
def splitDash (s : String) : List String :=
  (splitDashL s.data).map String.mk

/-- Python `"-".join(parts)`. -/
def joinDash : List String → String
  | [] => ""
  | [s] => s
  | s :: rest => s ++ "-" ++ joinDash rest

/-- `SessionRegistry.get_session`. -/
def get_session (r : RegistryState) (name : String) : Option SessionDetail :=
  let meta := (persistedGet r.persisted name).getD []
  let exists_ := session_exists r.tmuxRows name
  if !exists_ && meta.isEmpty then none
  else
    let state0 := (cacheGet r.stateCache name).getD (parse_state (getStrD meta "state" ""))
    let state := if !exists_ then ClaudeState.notRunning else state0
    let profile0 := getStrD meta "profile" ""
    let sessionId0 := getStrD meta "sessionId" ""
    let parts := splitDash name
    let prof_id :=
      if profile0 = "" && 2 ≤ parts.length then
        if 3 ≤ parts.length then
          (joinDash ((parts.drop 1).dropLast), parts.getLastD "")
        else (profile0, sessionId0)
      else (profile0, sessionId0)
    some
      { name := name
        session_id := prof_id.2
        profile := prof_id.1
        state := state
        needs_attention := needsAttentionOf state
        token_usage := extract_tokens meta
        yolo := extract_yolo meta
        created_at := parse_dt (metaGet meta "createdAt")
        last_activity := parse_dt (metaGet meta "lastActivity")
        working_dir := getStrD meta "workingDir" ""
        model := getStrD meta "model" "default"
        auto_continue_prompt := getStrD meta "autoContinuePrompt" ""
        approval_count := getIntD meta "approvalCount" 0 }

/-- Trailing dash-delimited segment of a session name. -/
def lastSegment (name : String) : String :=
  (splitDash name).getLastD ""

/-- Names known to the registry: the live multiplexer sessions together
with the persisted records not currently live (the same universe
`list_sessions` reports). -/
def knownNames (r : RegistryState) : List String :=
  let liveNames := (tmux_list_sessions r.tmuxRows).map (fun i => i.name)
  liveNames ++ (r.persisted.filter (fun p => !(liveNames.contains p.1))).map (fun p => p.1)

/-- Modelled from the spec: `SessionRegistry.resolve_session_id` is absent
from the repository sources (only its caller in `main.py` remains).  Spec:
"scans known names for one whose trailing id segment equals `shortId`;
returns the first match or none." -/
def resolve_session_id (r : RegistryState) (shortId : String) : Option String :=
  (knownNames r).find? (fun n => lastSegment n == shortId)

/-- The session name the hook handler routes under: the resolved full name,
or the raw short id when resolution yields nothing (Python falsiness also
sends an empty resolved name to the fallback). -/
def resolvedName (r : RegistryState) (session_id : String) : String :=
  match resolve_session_id r session_id with
  | some n => if n = "" then session_id else n
  | none => session_id

/-- `WSEventType` from `models.py`. -/
inductive WSEventType where
  | state_changed
  | permission_requested
  | task_started
  | task_finished
  | wsNotification
  | transcript_update
  | token_usage_updated
  | session_created
  | session_removed
deriving DecidableEq, Repr

/-- A `WSEvent` envelope as built by `emit_event` (the wall-clock timestamp
field is external and omitted). -/
structure WSEvent where
  type : WSEventType
  session_name : String
  data : List (String × Json)

/-- `hook_event_handler` from `main.py`: resolve the short id, branch on the
event's `type` string, write the overlay where required, and emit the
type-specific envelope followed by the unconditional generic forwarding
envelope.  Dispatch compares `event.get("type", "")` against the four known
strings; a non-string `type` value compares unequal to all of them in the
source and is modelled by the accessor's `""` default, while the generic
envelope carries the raw value. -/
def hook_event_handler (r : RegistryState) (session_id : String) (event : Meta) :
    RegistryState × List WSEvent :=
  let event_type := getStrD event "type" ""
  let session_name := resolvedName r session_id
  let rawType : Json := (metaGet event "type").getD (Json.str "")
  let generic : WSEvent :=
    ⟨.wsNotification, session_name, [("hook_event", rawType), ("raw", Json.obj event)]⟩
  if event_type = "Stop" then
    (update_state r session_name .idle,
      [⟨.state_changed, session_name, [("state", Json.str "idle")]⟩, generic])
  else if event_type = "PreToolUse" then
    let tool := (metaGet event "tool").getD (Json.str "")
    (update_state r session_name .working,
      [⟨.state_changed, session_name, [("state", Json.str "working"), ("tool", tool)]⟩, generic])
  else if event_type = "PostToolUse" then
    let tool := (metaGet event "tool").getD (Json.str "")
    (r,
      [⟨.state_changed, session_name,
          [("state", Json.str "working"), ("tool", tool), ("phase", Json.str "post")]⟩, generic])
  else if event_type = "Notification" then
    let message := (metaGet event "message").getD (Json.str "")
    (r, [⟨.wsNotification, session_name, [("message", message)]⟩, generic])
  else
    (r, [generic])

/-- The event-type strings with a dedicated dispatch arm in
`hook_event_handler`. -/
def recognizedTypes : List String :=
  ["Stop", "PreToolUse", "PostToolUse", "Notification"]

/-- One line read by `HookListener._listen_socket`, after `strip()` and
`json.loads` (both library code): the stripped line was empty, or raised
`JSONDecodeError`, or parsed to a JSON value. -/
inductive HookLine where
  | empty : HookLine
  | malformed (text : String) : HookLine
  | value (j : Json) : HookLine

/-- What `_listen_socket` does with one line. -/
inductive ListenAction where
  | skip : ListenAction
  | warn (text : String) : ListenAction
  | forward (j : Json) : ListenAction

/-- The per-line dispatch of `_listen_socket`: empty lines are skipped,
undecodable lines are logged, every successfully parsed JSON value is handed
to the callback. -/
def listenLineStep : HookLine → ListenAction
  | .empty => .skip
  | .malformed s => .warn s
  | .value j => .forward j

/-- Whether the bridge's callback raises on a forwarded value: the cited
`hook_event_handler` begins with `event.get("type", "")`, which raises
`AttributeError` for every non-object JSON value (int, string, list, bool,
null have no `get`). -/
def callbackRaises : Json → Bool
  | Json.obj _ => false
  | _ => true

/-- A line that cannot abort the read loop: anything but a JSON value that
makes the callback raise. -/
def lineBenign : HookLine → Bool
  | HookLine.value j => !(callbackRaises j)
  | _ => true

/-- One connection's read loop in `_listen_socket`, composed with the
raising behavior of the cited callback: empty lines are skipped and
undecodable lines warned inside the loop's own `try`, every parsed value is
handed to the callback, but a callback exception — raised exactly for
non-object values — escapes the `except json.JSONDecodeError` handler,
aborts the `async for` (the outer `except Exception` swallows it and the
listener re-dials after a fixed delay), and the connection's remaining
lines are never processed.  Returns the actions taken before the abort and
whether the loop was aborted by a callback error. -/
def readLoop : List HookLine → List ListenAction × Bool
  | [] => ([], false)
  | HookLine.empty :: rest =>
    (ListenAction.skip :: (readLoop rest).1, (readLoop rest).2)
  | HookLine.malformed s :: rest =>
    (ListenAction.warn s :: (readLoop rest).1, (readLoop rest).2)
  | HookLine.value j :: rest =>
    if callbackRaises j then ([ListenAction.forward j], true)
    else (ListenAction.forward j :: (readLoop rest).1, (readLoop rest).2)

/-- The values one connection actually forwards to the callback. -/
def forwardedEvents (lines : List HookLine) : List Json :=
  (readLoop lines).1.filterMap (fun a =>
    match a with
    | ListenAction.forward j => some j
    | _ => none)

/-- Written from the spec's words, for comparison with the code: a valid
HookEvent is "a well-formed JSON object with a string `type`". -/
def specHookEventValid : Json → Bool
  | Json.obj fields =>
    match (fields.find? (fun p => p.1 == "type")).map (fun p => p.2) with
    | some (Json.str _) => true
    | _ => false
  | _ => false

/-- One pass of the send loop in `ConnectionManager.broadcast`: subscribers
are visited in list order, each send attempted in its own `try`; returns the
successfully delivered subscribers and the `dead` list, both in visit
order.  `fails ws = true` models `ws.send_text` raising. -/
def broadcastSends {α : Type} (conns : List α) (fails : α → Bool) : List α × List α :=
  match conns with
  | [] => ([], [])
  | ws :: rest =>
    let p := broadcastSends rest fails
    if fails ws then (p.1, ws :: p.2) else (ws :: p.1, p.2)

/-- `ConnectionManager.broadcast`: attempt every send, then remove each dead
subscriber with `connections.remove` (first occurrence).  Returns the
subscriber list afterward, the delivered-to list, and the dead list. -/
def broadcast {α : Type} [DecidableEq α] (conns : List α) (fails : α → Bool) :
    List α × List α × List α :=
  let p := broadcastSends conns fails
  (p.2.foldl (fun acc ws => acc.erase ws) conns, p.1, p.2)

/-- Lock-relevant actions of one `broadcast` call, in program order. -/
inductive LockAction (α : Type) where
  | acquire : LockAction α
  | send (ws : α) : LockAction α
  | removeDead (ws : α) : LockAction α
  | release : LockAction α

/-- The action trace of `ConnectionManager.broadcast`: the `async with
self._lock` block opens before the send loop and closes after the dead
subscribers are removed, so every per-subscriber send sits between the
acquire and the release. -/
def broadcastTrace {α : Type} (conns : List α) (fails : α → Bool) : List (LockAction α) :=
  LockAction.acquire ::
    (conns.map LockAction.send ++
      ((broadcastSends conns fails).2.map LockAction.removeDead ++ [LockAction.release]))

/-- The subscribers whose send happens while the lock is held, given the
lock state on entry. -/
def sendsUnderLock {α : Type} : List (LockAction α) → Bool → List α
  | [], _ => []
  | LockAction.acquire :: tr, _ => sendsUnderLock tr true
  | LockAction.release :: tr, _ => sendsUnderLock tr false
  | LockAction.send ws :: tr, held => (if held then [ws] else []) ++ sendsUnderLock tr held
  | LockAction.removeDead _ :: tr, held => sendsUnderLock tr held

/-! Helper lemmas. -/

theorem broadcastSends_eq {α : Type} (conns : List α) (fails : α → Bool) :
    broadcastSends conns fails =
      (conns.filter (fun ws => !(fails ws)), conns.filter fails) := by
  induction conns with
  | nil => rfl
  | cons ws rest ih =>
    simp only [broadcastSends, ih, List.filter_cons]
    cases h : fails ws <;> simp [h]

theorem foldl_erase_eq_filter {α : Type} [DecidableEq α] :
    ∀ (ds l : List α), l.Nodup →
      ds.foldl (fun acc x => acc.erase x) l = l.filter (fun x => decide (x ∉ ds))
  | [], l, _ => by simp
  | d :: ds, l, h => by
    rw [List.foldl_cons, foldl_erase_eq_filter ds (l.erase d) (h.erase d),
      h.erase_eq_filter, List.filter_filter]
    refine List.filter_congr (fun x _ => ?_)
    by_cases hxd : x = d <;> by_cases hxds : x ∈ ds <;> simp [hxd, hxds]

theorem sendsUnderLock_sends {α : Type} (conns : List α) (tr : List (LockAction α)) :
    sendsUnderLock (conns.map LockAction.send ++ tr) true = conns ++ sendsUnderLock tr true := by
  induction conns with
  | nil => rfl
  | cons ws rest ih => simp [sendsUnderLock, ih]

theorem sendsUnderLock_removes {α : Type} (ds : List α) (tr : List (LockAction α)) (held : Bool) :
    sendsUnderLock (ds.map LockAction.removeDead ++ tr) held = sendsUnderLock tr held := by
  induction ds with
  | nil => rfl
  | cons d rest ih => simp [sendsUnderLock, ih]

theorem find?_first {α : Type} (p : α → Bool) :
    ∀ (l : List α) (a : α), l.find? p = some a →
      ∃ pre post, l = pre ++ a :: post ∧ (∀ x ∈ pre, p x = false) ∧ p a = true
  | [], a, h => by simp [List.find?] at h
  | x :: l, a, h => by
    by_cases hx : p x
    · rw [List.find?_cons_of_pos _ hx] at h
      obtain rfl : x = a := by injection h
      exact ⟨[], l, rfl, by simp, hx⟩
    · rw [List.find?_cons_of_neg _ (by simpa using hx)] at h
      obtain ⟨pre, post, hl, hpre, hp⟩ := find?_first p l a h
      exact ⟨x :: pre, post, by simp [hl], by
        intro y hy
        rcases List.mem_cons.mp hy with rfl | hy
        · simpa using hx
        · exact hpre y hy, hp⟩

/-! Claim theorems. -/

/-- C4: in `broadcast` over any (duplicate-free) subscriber set, each
subscriber's send is attempted independently — the delivered set is exactly
the non-failing subscribers regardless of failures elsewhere, every failing
subscriber is removed from the subscriber list by the end of the call, and
every succeeding subscriber remains registered. -/
theorem claim_C4 {α : Type} [DecidableEq α] (conns : List α) (fails : α → Bool)
    (hnd : conns.Nodup) :
    ((broadcast conns fails).2.1 = conns.filter (fun ws => !(fails ws))) ∧
    ((broadcast conns fails).1 = conns.filter (fun ws => !(fails ws))) ∧
    (∀ ws ∈ conns, fails ws = false →
        ws ∈ (broadcast conns fails).2.1 ∧ ws ∈ (broadcast conns fails).1) ∧
    (∀ ws ∈ conns, fails ws = true → ws ∉ (broadcast conns fails).1) := by
  have hsends := broadcastSends_eq conns fails
  have hdel : (broadcast conns fails).2.1 = conns.filter (fun ws => !(fails ws)) := by
    simp [broadcast, hsends]
  have hrem : (broadcast conns fails).1 = conns.filter (fun ws => !(fails ws)) := by
    show ((broadcastSends conns fails).2.foldl (fun acc ws => acc.erase ws) conns) = _
    rw [hsends, foldl_erase_eq_filter _ _ hnd]
    refine List.filter_congr (fun x hx => ?_)
    by_cases hf : fails x <;> simp [List.mem_filter, hx, hf]
  refine ⟨hdel, hrem, ?_, ?_⟩
  · intro ws hws hf
    exact ⟨hdel ▸ List.mem_filter.mpr ⟨hws, by simp [hf]⟩,
           hrem ▸ List.mem_filter.mpr ⟨hws, by simp [hf]⟩⟩
  · intro ws hws hf hmem
    have := (List.mem_filter.mp (hrem ▸ hmem)).2
    simp [hf] at this

/-- C4 witness: three subscribers, the middle one failing — the two healthy
ones receive the envelope and stay, the failed one is gone afterward. -/
theorem claim_C4_witness :
    (2 : Nat) ∉ (broadcast [1, 2, 3] (fun ws => ws == 2)).1 ∧
    (1 : Nat) ∈ (broadcast [1, 2, 3] (fun ws => ws == 2)).2.1 ∧
    (3 : Nat) ∈ (broadcast [1, 2, 3] (fun ws => ws == 2)).2.1 ∧
    (1 : Nat) ∈ (broadcast [1, 2, 3] (fun ws => ws == 2)).1 ∧
    (3 : Nat) ∈ (broadcast [1, 2, 3] (fun ws => ws == 2)).1 := by
  have h := claim_C4 [1, 2, 3] (fun ws => ws == 2) (by decide)
  exact ⟨h.2.2.2 2 (by decide) (by decide),
    (h.2.2.1 1 (by decide) (by decide)).1, (h.2.2.1 3 (by decide) (by decide)).1,
    (h.2.2.1 1 (by decide) (by decide)).2, (h.2.2.1 3 (by decide) (by decide)).2⟩

/-- C5 counterexample: with a single healthy subscriber, its send happens
while the broadcast lock is held — the claim that the lock is not held
across any per-subscriber send is false on this code. -/
theorem claim_C5_counterexample :
    sendsUnderLock (broadcastTrace [0] (fun _ => false)) false ≠ ([] : List Nat) := by
  decide

/-- C5 amended: in `broadcast` the serialization lock is held for the whole
call — every per-subscriber send occurs between the acquire and the release
(so a slow send can block concurrent accept/disconnect mutations until the
broadcast finishes). -/
theorem claim_C5_amended {α : Type} (conns : List α) (fails : α → Bool) :
    sendsUnderLock (broadcastTrace conns fails) false = conns := by
  have h1 := sendsUnderLock_sends conns
    ((broadcastSends conns fails).2.map LockAction.removeDead ++ [LockAction.release])
  have h2 := sendsUnderLock_removes (α := α) (broadcastSends conns fails).2
    [LockAction.release] true
  simp only [broadcastTrace, List.append_assoc, List.singleton_append, sendsUnderLock]
  rw [h1, h2]
  simp [sendsUnderLock]

/-- C6 counterexample: the line `3` parses as JSON but is not an object with
a string `type`; the listener still forwards it to the callback instead of
dropping it. -/
theorem claim_C6_counterexample :
    listenLineStep (HookLine.value (Json.num 3)) = ListenAction.forward (Json.num 3) ∧
    specHookEventValid (Json.num 3) = false :=
  ⟨rfl, rfl⟩

/-- C6 amended: every non-empty line that is not well-formed JSON is
dropped with a warning and reading continues at the next line; every line
that parses as any JSON value — object or not, with or without a string
`type` field — is handed to the callback.  As long as the forwarded values
are JSON objects (so the callback does not raise), each line yields exactly
one action and no line terminates the stream; but a line parsing to a
non-object value, after being forwarded, makes the callback raise, which
escapes the JSONDecodeError-only handler and aborts that connection's read
loop — its remaining lines are never processed (the listener then
reconnects after a fixed delay). -/
theorem claim_C6_amended (lines : List HookLine) :
    (lines.all lineBenign = true →
      readLoop lines = (lines.map listenLineStep, false) ∧
      forwardedEvents lines =
        lines.filterMap (fun l =>
          match l with
          | HookLine.value j => some j
          | _ => none)) ∧
    (∀ (pre : List HookLine) (j : Json) (post : List HookLine),
      pre.all lineBenign = true → callbackRaises j = true →
      readLoop (pre ++ HookLine.value j :: post) =
        (pre.map listenLineStep ++ [ListenAction.forward j], true)) ∧
    (∀ s, listenLineStep (HookLine.malformed s) = ListenAction.warn s) ∧
    listenLineStep HookLine.empty = ListenAction.skip := by
  have hclean : ∀ (ls : List HookLine), ls.all lineBenign = true →
      readLoop ls = (ls.map listenLineStep, false) := by
    intro ls
    induction ls with
    | nil => intro _; rfl
    | cons l rest ih =>
      intro hall
      rw [List.all_cons] at hall
      obtain ⟨hb, hrest⟩ := Bool.and_eq_true_iff.mp hall
      have ihr := ih hrest
      cases l with
      | empty => simp [readLoop, listenLineStep, ihr]
      | malformed s => simp [readLoop, listenLineStep, ihr]
      | value j =>
        have hcb : callbackRaises j = false := by simpa [lineBenign] using hb
        simp [readLoop, listenLineStep, hcb, ihr]
  refine ⟨fun hall => ⟨hclean lines hall, ?_⟩, ?_, fun s => rfl, rfl⟩
  · unfold forwardedEvents
    rw [hclean lines hall, List.filterMap_map]
    refine List.filterMap_congr (fun l _ => ?_)
    cases l <;> rfl
  · intro pre j post
    induction pre with
    | nil =>
      intro _ hcrash
      simp [readLoop, hcrash]
    | cons l rest ih =>
      intro hpre hcrash
      rw [List.all_cons] at hpre
      obtain ⟨hb, hrest⟩ := Bool.and_eq_true_iff.mp hpre
      have ihr := ih hrest hcrash
      cases l with
      | empty => simp [readLoop, listenLineStep, ihr]
      | malformed s => simp [readLoop, listenLineStep, ihr]
      | value j2 =>
        have hcb : callbackRaises j2 = false := by simpa [lineBenign] using hb
        simp [readLoop, listenLineStep, hcb, ihr]

/-- C6 witness: a stream of benign lines is fully processed with one action
per line and no abort; a non-object value line is forwarded and then aborts
the read loop, so the following object line is never dispatched. -/
theorem claim_C6_witness :
    readLoop [HookLine.empty, HookLine.malformed "oops",
        HookLine.value (Json.obj [("type", Json.str "Stop")])] =
      ([ListenAction.skip, ListenAction.warn "oops",
        ListenAction.forward (Json.obj [("type", Json.str "Stop")])], false) ∧
    readLoop [HookLine.value (Json.obj []), HookLine.value (Json.num 3),
        HookLine.value (Json.obj [("type", Json.str "Stop")])] =
      ([ListenAction.forward (Json.obj []), ListenAction.forward (Json.num 3)], true) := by
  constructor
  · exact ((claim_C6_amended [HookLine.empty, HookLine.malformed "oops",
      HookLine.value (Json.obj [("type", Json.str "Stop")])]).1 (by rfl)).1
  · exact (claim_C6_amended []).2.1 [HookLine.value (Json.obj [])] (Json.num 3)
      [HookLine.value (Json.obj [("type", Json.str "Stop")])] (by rfl) (by rfl)

/-- C1: the handler resolves the event's short id via the registry scan —
a returned name is the first known name whose trailing dash-delimited
segment equals the short id, `none` means no known name matches — and when
resolution yields no name the handler routes under the raw short id; every
event still produces at least one envelope, so no event is dropped for
resolution failure.  (`resolve_session_id` is modelled from the spec: its
implementation is absent from the sources; only its caller remains.) -/
theorem claim_C1 (r : RegistryState) (sid : String) (event : Meta) :
    (∀ n, resolve_session_id r sid = some n →
        lastSegment n = sid ∧
        ∃ pre post, knownNames r = pre ++ n :: post ∧ ∀ m ∈ pre, lastSegment m ≠ sid) ∧
    (resolve_session_id r sid = none → ∀ n ∈ knownNames r, lastSegment n ≠ sid) ∧
    ((hook_event_handler r sid event).2 ≠ []) ∧
    (resolve_session_id r sid = none →
        ∀ e ∈ (hook_event_handler r sid event).2, e.session_name = sid) := by
  refine ⟨?_, ?_, ?_, ?_⟩
  · intro n hn
    unfold resolve_session_id at hn
    obtain ⟨pre, post, hl, hpre, hp⟩ := find?_first _ _ _ hn
    refine ⟨by simpa using hp, pre, post, hl, ?_⟩
    intro m hm
    simpa using hpre m hm
  · intro hnone n hn
    unfold resolve_session_id at hnone
    simpa using List.find?_eq_none.mp hnone n hn
  · simp only [hook_event_handler]
    split_ifs <;> simp
  · intro hnone e he
    have hres : resolvedName r sid = sid := by
      unfold resolvedName
      rw [hnone]
    simp only [hook_event_handler, hres] at he
    split_ifs at he <;>
      simp only [List.mem_cons, List.not_mem_nil, or_false] at he <;>
      (rcases he with rfl | rfl) <;> rfl

/-- Registry state with one live konsolai session, used as concrete
input. -/
def rWitness : RegistryState :=
  { persisted := [], tmuxRows := [{ name := "konsolai-Default-a1b2c3d4" }], stateCache := [] }

/-- Registry state with no sessions at all, used as concrete input. -/
def rEmpty : RegistryState :=
  { persisted := [], tmuxRows := [], stateCache := [] }

/-- A concrete Stop hook event. -/
def evStop : Meta := [("type", Json.str "Stop")]

/-- C1 witness: the short id resolves against the known full name; with an
empty registry an event is still handled, routed under the raw id. -/
theorem claim_C1_witness :
    lastSegment "konsolai-Default-a1b2c3d4" = "a1b2c3d4" ∧
    (hook_event_handler rEmpty "beef1234" evStop).2 ≠ [] ∧
    (hook_event_handler rEmpty "beef1234" evStop).2.all
      (fun e => e.session_name == "beef1234") = true := by
  have h1 := (claim_C1 rWitness "a1b2c3d4" []).1 "konsolai-Default-a1b2c3d4" (by decide)
  have h3 := (claim_C1 rEmpty "beef1234" evStop).2.2.1
  have h4 := (claim_C1 rEmpty "beef1234" evStop).2.2.2 (by decide)
  exact ⟨h1.1, h3, List.all_eq_true.mpr (fun e he => beq_iff_eq.mpr (h4 e he))⟩

/-- C2: every handled event emits the generic NOTIFICATION envelope carrying
the raw `type` value and the raw event as its final envelope; a recognized
type yields exactly two envelopes and an unrecognized one exactly the
generic envelope; a Stop event writes overlay state Idle and emits
STATE_CHANGED state-idle before the generic envelope; a PostToolUse event
leaves the registry untouched yet still emits its STATE_CHANGED
state-working phase-post envelope before the generic envelope. -/
theorem claim_C2 (r : RegistryState) (sid : String) (event : Meta) :
    ((hook_event_handler r sid event).2.getLast? =
      some ⟨WSEventType.wsNotification, resolvedName r sid,
        [("hook_event", (metaGet event "type").getD (Json.str "")),
         ("raw", Json.obj event)]⟩) ∧
    (getStrD event "type" "" ∈ recognizedTypes →
      (hook_event_handler r sid event).2.length = 2) ∧
    (getStrD event "type" "" ∉ recognizedTypes →
      (hook_event_handler r sid event).2.length = 1) ∧
    (getStrD event "type" "" = "Stop" →
      (hook_event_handler r sid event).1 =
        update_state r (resolvedName r sid) ClaudeState.idle ∧
      (hook_event_handler r sid event).2 =
        [⟨WSEventType.state_changed, resolvedName r sid, [("state", Json.str "idle")]⟩,
         ⟨WSEventType.wsNotification, resolvedName r sid,
           [("hook_event", (metaGet event "type").getD (Json.str "")),
            ("raw", Json.obj event)]⟩]) ∧
    (getStrD event "type" "" = "PostToolUse" →
      (hook_event_handler r sid event).1 = r ∧
      (hook_event_handler r sid event).2 =
        [⟨WSEventType.state_changed, resolvedName r sid,
           [("state", Json.str "working"),
            ("tool", (metaGet event "tool").getD (Json.str "")),
            ("phase", Json.str "post")]⟩,
         ⟨WSEventType.wsNotification, resolvedName r sid,
           [("hook_event", (metaGet event "type").getD (Json.str "")),
            ("raw", Json.obj event)]⟩]) := by
  refine ⟨?_, ?_, ?_, ?_, ?_⟩
  · simp only [hook_event_handler]
    split_ifs <;> rfl
  · intro hmem
    simp only [recognizedTypes, List.mem_cons, List.not_mem_nil, or_false] at hmem
    simp only [hook_event_handler]
    split_ifs with hA hB hC hD
    · rfl
    · rfl
    · rfl
    · rfl
    · rcases hmem with h | h | h | h
      exacts [absurd h hA, absurd h hB, absurd h hC, absurd h hD]
  · intro hnot
    simp only [hook_event_handler]
    split_ifs with hA hB hC hD
    · exact absurd (by simp [recognizedTypes, hA]) hnot
    · exact absurd (by simp [recognizedTypes, hB]) hnot
    · exact absurd (by simp [recognizedTypes, hC]) hnot
    · exact absurd (by simp [recognizedTypes, hD]) hnot
    · rfl
  · intro hS
    simp only [hook_event_handler]
    split_ifs
    exact ⟨rfl, rfl⟩
  · intro hP
    simp only [hook_event_handler]
    split_ifs with hA hB
    · rw [hP] at hA; exact absurd hA (by decide)
    · rw [hP] at hB; exact absurd hB (by decide)
    · exact ⟨rfl, rfl⟩

/-- C2 witness: a concrete Stop event against the empty registry yields two
envelopes and writes the Idle overlay entry. -/
theorem claim_C2_witness :
    (hook_event_handler rEmpty "beef1234" evStop).2.length = 2 ∧
    (hook_event_handler rEmpty "beef1234" evStop).1 =
      update_state rEmpty (resolvedName rEmpty "beef1234") ClaudeState.idle := by
  exact ⟨(claim_C2 rEmpty "beef1234" evStop).2.1 (by decide),
    ((claim_C2 rEmpty "beef1234" evStop).2.2.2.1 (by decide)).1⟩

/-! Registry helper lemmas. -/

theorem mkTmuxSessionInfo_name (row : TmuxRaw) : (mkTmuxSessionInfo row).name = row.name := by
  simp only [mkTmuxSessionInfo]
  split <;> rfl

theorem liveSummary_name (r : RegistryState) (info : TmuxSessionInfo) :
    (liveSummary r info).name = info.name := rfl

theorem persistedSummary_name (name : String) (meta : Meta) :
    (persistedSummary name meta).name = name := rfl

theorem list_sessions_mem {r : RegistryState} {s : SessionSummary} (h : s ∈ list_sessions r) :
    (∃ info ∈ tmux_list_sessions r.tmuxRows, s = liveSummary r info) ∨
    (∃ p ∈ r.persisted,
        ((tmux_list_sessions r.tmuxRows).map (fun i => i.name)).contains p.1 = false ∧
        s = persistedSummary p.1 p.2) := by
  simp only [list_sessions] at h
  rw [List.mem_insertionSort] at h
  rcases List.mem_append.mp h with h | h
  · left
    obtain ⟨info, hinfo, rfl⟩ := List.mem_map.mp h
    exact ⟨info, hinfo, rfl⟩
  · right
    obtain ⟨p, hp, rfl⟩ := List.mem_map.mp h
    have hp2 := List.mem_filter.mp hp
    refine ⟨p, hp2.1, ?_, rfl⟩
    simpa using hp2.2

theorem session_exists_of_mem_live {rows : List TmuxRaw} {info : TmuxSessionInfo}
    (h : info ∈ tmux_list_sessions rows) : session_exists rows info.name = true := by
  unfold tmux_list_sessions at h
  obtain ⟨row, hrow, rfl⟩ := List.mem_map.mp h
  have hr := (List.mem_filter.mp hrow).1
  unfold session_exists
  rw [mkTmuxSessionInfo_name]
  exact List.any_eq_true.mpr ⟨row, hr, by simp⟩

theorem mem_live_isSome {rows : List TmuxRaw} {info : TmuxSessionInfo}
    (h : info ∈ tmux_list_sessions rows) : (sessionReMatch info.name).isSome = true := by
  unfold tmux_list_sessions at h
  obtain ⟨row, hrow, rfl⟩ := List.mem_map.mp h
  rw [mkTmuxSessionInfo_name]
  simpa using (List.mem_filter.mp hrow).2

theorem get_session_not_live {r : RegistryState} {name : String}
    (hex : session_exists r.tmuxRows name = false) :
    ∀ d, get_session r name = some d → d.state = ClaudeState.notRunning := by
  intro d hd
  simp only [get_session] at hd
  rw [hex] at hd
  split at hd
  · exact Option.noConfusion hd
  · injection hd with h
    subst h
    rfl

theorem get_session_live {r : RegistryState} {name : String}
    (hex : session_exists r.tmuxRows name = true) :
    ∀ d, get_session r name = some d →
      d.state = (cacheGet r.stateCache name).getD
        (parse_state (getStrD ((persistedGet r.persisted name).getD []) "state" "")) := by
  intro d hd
  simp only [get_session] at hd
  rw [hex] at hd
  split at hd
  · exact Option.noConfusion hd
  · injection hd with h
    subst h
    rfl

theorem list_state_not_live {r : RegistryState} {name : String}
    (hex : session_exists r.tmuxRows name = false) :
    ∀ s ∈ list_sessions r, s.name = name → s.state = ClaudeState.notRunning := by
  intro s hs hname
  rcases list_sessions_mem hs with ⟨info, hinfo, rfl⟩ | ⟨p, hp, hc, rfl⟩
  · have hlive := session_exists_of_mem_live hinfo
    rw [liveSummary_name] at hname
    rw [hname] at hlive
    rw [hlive] at hex
    exact Bool.noConfusion hex
  · rfl

/-- C3: a name absent from the live-process source reports NotRunning from
both `list_sessions` and `get_session`, regardless of any overlay value
previously written (in particular after `update_state name Idle`) and of any
persisted state string; for names present in the live source the state is
the overlay value if set, else the parsed persisted state, else
NotRunning. -/
theorem claim_C3 (r : RegistryState) (name : String) :
    (session_exists r.tmuxRows name = false →
        (∀ s ∈ list_sessions r, s.name = name → s.state = ClaudeState.notRunning) ∧
        (∀ s ∈ list_sessions (update_state r name ClaudeState.idle), s.name = name →
            s.state = ClaudeState.notRunning) ∧
        (∀ d, get_session r name = some d → d.state = ClaudeState.notRunning) ∧
        (∀ d, get_session (update_state r name ClaudeState.idle) name = some d →
            d.state = ClaudeState.notRunning)) ∧
    (session_exists r.tmuxRows name = true →
        ∀ d, get_session r name = some d →
          d.state = (cacheGet r.stateCache name).getD
            (parse_state (getStrD ((persistedGet r.persisted name).getD []) "state" ""))) ∧
    (∀ s ∈ list_sessions r,
        s.name ∈ (tmux_list_sessions r.tmuxRows).map (fun i => i.name) →
          s.state = (cacheGet r.stateCache s.name).getD
            (parse_state (getStrD ((persistedGet r.persisted s.name).getD []) "state" ""))) := by
  refine ⟨fun hex => ⟨?_, ?_, ?_, ?_⟩, fun hex => ?_, ?_⟩
  · exact list_state_not_live hex
  · exact list_state_not_live (r := update_state r name ClaudeState.idle) hex
  · exact get_session_not_live hex
  · exact get_session_not_live (r := update_state r name ClaudeState.idle) hex
  · exact get_session_live hex
  · intro s hs hname
    rcases list_sessions_mem hs with ⟨info, hinfo, rfl⟩ | ⟨p, hp, hc, rfl⟩
    · rfl
    · rw [persistedSummary_name] at hname
      have hct : (List.map (fun i => i.name) (tmux_list_sessions r.tmuxRows)).contains p.1 = true :=
        List.elem_iff.mpr hname
      rw [hct] at hc
      exact Bool.noConfusion hc

/-- Persisted-only registry state with a Working state string, used as
concrete input. -/
def rCW3 : RegistryState :=
  { persisted := [("S", [("state", Json.str "Working")])], tmuxRows := [], stateCache := [] }

/-- C3 witness: after writing Idle to the overlay for a session absent from
the live source, `get_session` still reports NotRunning. -/
theorem claim_C3_witness :
    (get_session (update_state rCW3 "S" ClaudeState.idle) "S").map (fun d => d.state) =
      some ClaudeState.notRunning := by
  have h := ((claim_C3 rCW3 "S").1 (by decide)).2.2.2
  rcases hd : get_session (update_state rCW3 "S" ClaudeState.idle) "S" with _ | d
  · exact absurd hd (by decide)
  · simp [h d hd]

/-- C9: every summary from `list_sessions` and every detail from
`get_session` has `needs_attention` true exactly when its reported state is
WaitingInput or Error (persisted-only sessions forced to NotRunning
therefore always report false). -/
theorem claim_C9 (r : RegistryState) :
    (∀ s ∈ list_sessions r,
        (s.needs_attention = true ↔
          (s.state = ClaudeState.waitingInput ∨ s.state = ClaudeState.error))) ∧
    (∀ name d, get_session r name = some d →
        (d.needs_attention = true ↔
          (d.state = ClaudeState.waitingInput ∨ d.state = ClaudeState.error))) := by
  have hiff : ∀ st : ClaudeState,
      (needsAttentionOf st = true ↔ (st = ClaudeState.waitingInput ∨ st = ClaudeState.error)) := by
    intro st
    cases st <;> simp [needsAttentionOf]
  constructor
  · intro s hs
    rcases list_sessions_mem hs with ⟨info, hinfo, rfl⟩ | ⟨p, hp, hc, rfl⟩
    · exact hiff _
    · simp [persistedSummary]
  · intro name d hd
    simp only [get_session] at hd
    split at hd
    · exact Option.noConfusion hd
    · injection hd with h
      subst h
      exact hiff _

/-- Registry state with one live konsolai session whose overlay says
WaitingInput, used as concrete input. -/
def rCW9 : RegistryState :=
  { persisted := [],
    tmuxRows := [{ name := "konsolai-p-ffffffff" }],
    stateCache := [("konsolai-p-ffffffff", ClaudeState.waitingInput)] }

/-- C9 witness: the live WaitingInput session reports needs_attention. -/
theorem claim_C9_witness :
    (get_session rCW9 "konsolai-p-ffffffff").map (fun d => d.needs_attention) = some true := by
  have h := (claim_C9 rCW9).2 "konsolai-p-ffffffff"
  rcases hd : get_session rCW9 "konsolai-p-ffffffff" with _ | d
  · exact absurd hd (by decide)
  · have hstate : d.state = ClaudeState.waitingInput := by
      have hmap : (get_session rCW9 "konsolai-p-ffffffff").map (fun d => d.state) =
          some ClaudeState.waitingInput := by decide
      rw [hd] at hmap
      simpa using hmap
    simp [(h d hd).mpr (Or.inl hstate)]

/-- Characterization of the tuple-key order. -/
theorem summaryLe_iff {a b : SessionSummary} :
    summaryLe a b ↔
      ((a.needs_attention = true ∧ b.needs_attention = false) ∨
        (a.needs_attention = b.needs_attention ∧
          a.last_activity.getD 0 ≤ b.last_activity.getD 0)) := by
  unfold summaryLe summaryKeyLe
  cases ha : a.needs_attention <;> cases hb : b.needs_attention <;> simp [ha, hb]

instance : IsTotal SessionSummary summaryLe := by
  constructor
  intro a b
  rw [summaryLe_iff, summaryLe_iff]
  cases ha : a.needs_attention <;> cases hb : b.needs_attention <;> simp [ha, hb] <;>
    exact Nat.le_total _ _

instance : IsTrans SessionSummary summaryLe := by
  constructor
  intro a b c hab hbc
  rw [summaryLe_iff] at hab hbc ⊢
  rcases hab with ⟨ha, hb⟩ | ⟨hab2, hle1⟩ <;> rcases hbc with ⟨hb2, hc⟩ | ⟨hbc2, hle2⟩
  · rw [hb] at hb2
    exact absurd hb2 (by simp)
  · exact Or.inl ⟨ha, hbc2 ▸ hb⟩
  · exact Or.inl ⟨hab2.trans hb2, hc⟩
  · exact Or.inr ⟨hab2.trans hbc2, Nat.le_trans hle1 hle2⟩

/-- C7: for any persisted records and live sessions with unique names,
`list_sessions` returns no duplicate names, and the result is totally
ordered with attention-needing sessions first and, within equal attention,
`last_activity` ascending where a missing timestamp counts as the minimum
value 0. -/
theorem claim_C7 (r : RegistryState)
    (hrows : (r.tmuxRows.map (fun row => row.name)).Nodup)
    (hpers : (r.persisted.map (fun p => p.1)).Nodup) :
    ((list_sessions r).map (fun s => s.name)).Nodup ∧
    (list_sessions r).Pairwise (fun a b =>
      (b.needs_attention = true → a.needs_attention = true) ∧
      (a.needs_attention = b.needs_attention →
        a.last_activity.getD 0 ≤ b.last_activity.getD 0)) := by
  have hpre :
      list_sessions r =
        (((tmux_list_sessions r.tmuxRows).map (liveSummary r)) ++
          ((r.persisted.filter (fun p =>
              !(((tmux_list_sessions r.tmuxRows).map (fun i => i.name)).contains p.1))).map
            (fun p => persistedSummary p.1 p.2))).insertionSort summaryLe := rfl
  constructor
  · -- no duplicate names
    have hperm :
        List.Perm ((list_sessions r).map (fun s => s.name))
          ((((tmux_list_sessions r.tmuxRows).map (liveSummary r)) ++
            ((r.persisted.filter (fun p =>
                !(((tmux_list_sessions r.tmuxRows).map (fun i => i.name)).contains p.1))).map
              (fun p => persistedSummary p.1 p.2))).map (fun s => s.name)) := by
      rw [hpre]
      exact (List.perm_insertionSort _ _).map _
    refine hperm.nodup_iff.mpr ?_
    rw [List.map_append, List.map_map, List.map_map]
    have hlnames :
        ((tmux_list_sessions r.tmuxRows).map ((fun s => s.name) ∘ liveSummary r)) =
          (tmux_list_sessions r.tmuxRows).map (fun i => i.name) := by
      exact List.map_congr_left (fun info _ => rfl)
    have hpnames :
        ((r.persisted.filter (fun p =>
            !(((tmux_list_sessions r.tmuxRows).map (fun i => i.name)).contains p.1))).map
          ((fun s => s.name) ∘ fun p => persistedSummary p.1 p.2)) =
          (r.persisted.filter (fun p =>
            !(((tmux_list_sessions r.tmuxRows).map (fun i => i.name)).contains p.1))).map
            (fun p => p.1) := by
      exact List.map_congr_left (fun p _ => rfl)
    rw [hlnames, hpnames]
    have hlive_nodup : ((tmux_list_sessions r.tmuxRows).map (fun i => i.name)).Nodup := by
      unfold tmux_list_sessions
      rw [List.map_map]
      have heq :
          ((r.tmuxRows.filter (fun row => (sessionReMatch row.name).isSome)).map
            ((fun i => i.name) ∘ mkTmuxSessionInfo)) =
            ((r.tmuxRows.filter (fun row => (sessionReMatch row.name).isSome)).map
              (fun row => row.name)) :=
        List.map_congr_left (fun row _ => mkTmuxSessionInfo_name row)
      rw [heq]
      exact hrows.sublist ((List.filter_sublist _).map _)
    have hpers_nodup :
        ((r.persisted.filter (fun p =>
            !(((tmux_list_sessions r.tmuxRows).map (fun i => i.name)).contains p.1))).map
          (fun p => p.1)).Nodup :=
      hpers.sublist ((List.filter_sublist _).map _)
    refine hlive_nodup.append hpers_nodup ?_
    intro x hx hx2
    obtain ⟨p, hp, hpx⟩ := List.mem_map.mp hx2
    have hpf := (List.mem_filter.mp hp).2
    rw [hpx] at hpf
    have : (List.map (fun i => i.name) (tmux_list_sessions r.tmuxRows)).contains x = true :=
      List.elem_iff.mpr hx
    rw [this] at hpf
    exact Bool.noConfusion hpf
  · -- sortedness
    have hs : (list_sessions r).Pairwise summaryLe := by
      rw [hpre]
      exact List.sorted_insertionSort summaryLe _
    refine hs.imp ?_
    intro a b hab
    rcases summaryLe_iff.mp hab with ⟨ha, hb⟩ | ⟨he, hle⟩
    · refine ⟨fun _ => ha, fun heq => ?_⟩
      rw [ha, hb] at heq
      exact absurd heq (by simp)
    · exact ⟨fun hbt => he.trans hbt, fun _ => hle⟩

/-- Mixed registry state used as concrete input: one attention-needing live
session, one live session with a persisted timestamp, one persisted-only
record. -/
def rCW7 : RegistryState :=
  { persisted :=
      [("S1", [("state", Json.str "Error"), ("lastActivity", Json.num 5)]),
       ("konsolai-Default-a1b2c3d4", [("lastActivity", Json.num 9)])],
    tmuxRows := [{ name := "konsolai-Default-a1b2c3d4" }, { name := "konsolai-p-ffffffff" }],
    stateCache := [("konsolai-p-ffffffff", ClaudeState.waitingInput)] }

/-- C7 witness: the concrete mixed state yields a duplicate-free,
attention-first, last-activity-ascending listing. -/
theorem claim_C7_witness :
    ((list_sessions rCW7).map (fun s => s.name)).Nodup ∧
    (list_sessions rCW7).Pairwise (fun a b =>
      (b.needs_attention = true → a.needs_attention = true) ∧
      (a.needs_attention = b.needs_attention →
        a.last_activity.getD 0 ≤ b.last_activity.getD 0)) :=
  claim_C7 rCW7 (by decide) (by decide)

/-- Live non-konsolai session named with a single dash, used as concrete
input. -/
def rCX8 : RegistryState :=
  { persisted := [], tmuxRows := [{ name := "a-b" }], stateCache := [] }

/-- C8 counterexample: session "a-b" is live, its (absent) persisted
metadata lacks profile and sessionId, yet `get_session` returns a detail
whose session id is the empty string, not the name's trailing dash-delimited
segment "b" — the derivation requires at least three dash-delimited
segments. -/
theorem claim_C8_counterexample :
    (get_session rCX8 "a-b").isSome = true ∧
    getStrD ((persistedGet rCX8.persisted "a-b").getD []) "profile" "" = "" ∧
    getStrD ((persistedGet rCX8.persisted "a-b").getD []) "sessionId" "" = "" ∧
    (get_session rCX8 "a-b").map (fun d => d.session_id) ≠ some (lastSegment "a-b") := by
  decide

/-- C8 amended: `get_session name` returns no result exactly when the name
is absent from the live source and its persisted record is missing or
empty; when it returns a detail whose persisted metadata lacks `profile` and
the name splits into at least three dash-delimited segments, the returned
profile is the dash-joined middle segments and the session id the trailing
segment (overriding any persisted sessionId); otherwise profile and session
id are taken from the persisted metadata unchanged. -/
theorem claim_C8_amended (r : RegistryState) (name : String) :
    (get_session r name = none ↔
      session_exists r.tmuxRows name = false ∧
      ((persistedGet r.persisted name).getD []).isEmpty = true) ∧
    (∀ d, get_session r name = some d →
      ((getStrD ((persistedGet r.persisted name).getD []) "profile" "" = "" ∧
          3 ≤ (splitDash name).length →
        d.profile = joinDash (((splitDash name).drop 1).dropLast) ∧
        d.session_id = (splitDash name).getLastD "") ∧
       (¬(getStrD ((persistedGet r.persisted name).getD []) "profile" "" = "" ∧
          3 ≤ (splitDash name).length) →
        d.profile = getStrD ((persistedGet r.persisted name).getD []) "profile" "" ∧
        d.session_id = getStrD ((persistedGet r.persisted name).getD []) "sessionId" ""))) := by
  constructor
  · constructor
    · intro h
      simp only [get_session] at h
      by_cases hc :
          (!(session_exists r.tmuxRows name) &&
            ((persistedGet r.persisted name).getD []).isEmpty) = true
      · have hc2 := Bool.and_eq_true_iff.mp hc
        exact ⟨by simpa using hc2.1, hc2.2⟩
      · rw [if_neg hc] at h
        exact Option.noConfusion h
    · intro h
      simp [get_session, h.1, h.2]
  · intro d hd
    simp only [get_session] at hd
    split at hd
    · exact Option.noConfusion hd
    · injection hd with hinj
      subst hinj
      constructor
      · intro hh
        have h2le : 2 ≤ (splitDash name).length := by omega
        simp [hh.1, hh.2, h2le]
      · intro hnot
        by_cases hp : getStrD ((persistedGet r.persisted name).getD []) "profile" "" = ""
        · have hl : ¬ 3 ≤ (splitDash name).length := fun hq => hnot ⟨hp, hq⟩
          by_cases h2 : 2 ≤ (splitDash name).length
          · simp [hp, h2, hl]
          · simp [hp, h2]
        · simp [hp]

/-- C8 witness: an unknown name yields no result; a live three-segment name
with no persisted metadata gets its profile and session id derived from the
name. -/
theorem claim_C8_witness :
    get_session rEmpty "nothere" = none ∧
    (get_session rWitness "konsolai-Default-a1b2c3d4").map (fun d => (d.profile, d.session_id)) =
      some ("Default", "a1b2c3d4") := by
  constructor
  · exact (claim_C8_amended rEmpty "nothere").1.mpr ⟨by decide, by decide⟩
  · have h := (claim_C8_amended rWitness "konsolai-Default-a1b2c3d4").2
    rcases hd : get_session rWitness "konsolai-Default-a1b2c3d4" with _ | d
    · exact absurd hd (by decide)
    · have hder := (h d hd).1 ⟨by decide, by decide⟩
      rw [show Option.map (fun d : SessionDetail => (d.profile, d.session_id)) (some d) =
          some (d.profile, d.session_id) from rfl, hder.1, hder.2]
      decide

/-- A successful regex match decomposes the character list: fixed stem, a
non-empty profile group, a dash, and exactly 8 lowercase-hex id
characters. -/
theorem sessionReMatchL_spec {cs p h : List Char}
    (hm : sessionReMatchL cs = some (p, h)) :
    cs = "konsolai-".toList ++ p ++ '-' :: h ∧ p ≠ [] ∧ h.length = 8 ∧
      h.all isHexLower = true := by
  unfold sessionReMatchL at hm
  split_ifs at hm with h1 h2
  · split at hm
    next h' heq =>
      split_ifs at hm with h3
      injection hm with hinj
      rw [Prod.mk.injEq] at hinj
      obtain ⟨hp, hh⟩ := hinj
      subst hp
      subst hh
      refine ⟨?_, ?_, ?_, h3⟩
      · have e1 := List.take_append_drop 9 cs
        have e2 := List.take_append_drop ((cs.drop 9).length - 9) (cs.drop 9)
        calc cs = cs.take 9 ++ cs.drop 9 := e1.symm
          _ = "konsolai-".toList ++ cs.drop 9 := by rw [h1]
          _ = "konsolai-".toList ++
              ((cs.drop 9).take ((cs.drop 9).length - 9) ++
                (cs.drop 9).drop ((cs.drop 9).length - 9)) := by rw [e2]
          _ = "konsolai-".toList ++
              ((cs.drop 9).take ((cs.drop 9).length - 9) ++ ('-' :: h')) := by rw [heq]
          _ = "konsolai-".toList ++
              (cs.drop 9).take ((cs.drop 9).length - 9) ++ ('-' :: h') := by
                rw [List.append_assoc]
      · intro hnil
        have hlen := congrArg List.length hnil
        rw [List.length_take] at hlen
        simp only [List.length_nil] at hlen
        omega
      · have hl := congrArg List.length heq
        rw [List.length_drop, List.length_cons] at hl
        omega
    next =>
      exact Option.noConfusion hm

/-- String-level consequence of a successful `_SESSION_RE` match. -/
theorem sessionReMatch_spec {s p h : String}
    (hm : sessionReMatch s = some (p, h)) :
    s = "konsolai-" ++ p ++ "-" ++ h ∧ p ≠ "" ∧ h.length = 8 ∧
      h.data.all isHexLower = true := by
  unfold sessionReMatch at hm
  rcases hml : sessionReMatchL s.data with _ | ⟨pl, hl⟩
  · rw [hml] at hm
    exact Option.noConfusion hm
  · rw [hml] at hm
    have hm2 : some ((String.mk pl, String.mk hl) : String × String) = some (p, h) := hm
    injection hm2 with hinj
    rw [Prod.mk.injEq] at hinj
    obtain ⟨hp, hh⟩ := hinj
    subst hp
    subst hh
    obtain ⟨hcs, hpne, hlen, hall⟩ := sessionReMatchL_spec hml
    refine ⟨?_, ?_, ?_, ?_⟩
    · apply String.ext
      rw [String.data_append, String.data_append, String.data_append, hcs]
      simp [List.append_assoc]
    · intro hq
      exact hpne (by simpa using congrArg String.data hq)
    · simpa using hlen
    · simpa using hall

/-- C10: the live-session source returns only sessions whose name matches
`konsolai-{profile}-{8 lowercase hex}`; every returned entry carries the
non-empty profile and the 8-hex id extracted from its name; a live session
with a non-matching name never appears in the live list, and such a name
shows up in `list_sessions` only through the persisted store, forced to
NotRunning. -/
theorem claim_C10 (rows : List TmuxRaw) (r : RegistryState) :
    (∀ info ∈ tmux_list_sessions rows,
        info.name = "konsolai-" ++ info.profile ++ "-" ++ info.session_id ∧
        info.profile ≠ "" ∧
        info.session_id.length = 8 ∧
        info.session_id.data.all isHexLower = true ∧
        sessionReMatch info.name = some (info.profile, info.session_id)) ∧
    (∀ row ∈ rows, sessionReMatch row.name = none →
        ∀ info ∈ tmux_list_sessions rows, info.name ≠ row.name) ∧
    (∀ name, sessionReMatch name = none →
        ∀ s ∈ list_sessions r, s.name = name →
          s.state = ClaudeState.notRunning ∧ name ∈ r.persisted.map (fun p => p.1)) := by
  refine ⟨?_, ?_, ?_⟩
  · intro info hinfo
    unfold tmux_list_sessions at hinfo
    obtain ⟨row, hrow, rfl⟩ := List.mem_map.mp hinfo
    have hfilter := List.mem_filter.mp hrow
    obtain ⟨ph, hm⟩ := Option.isSome_iff_exists.mp (by simpa using hfilter.2)
    obtain ⟨p, h⟩ := ph
    obtain ⟨he, hp, hlen, hhex⟩ := sessionReMatch_spec hm
    refine ⟨?_, ?_, ?_, ?_, ?_⟩ <;> simp [mkTmuxSessionInfo, hm] <;> simp_all
  · intro row hrow hnone info hinfo heq
    have hsome := mem_live_isSome hinfo
    rw [heq, hnone] at hsome
    exact Bool.noConfusion hsome
  · intro name hnone s hs hname
    rcases list_sessions_mem hs with ⟨info, hinfo, rfl⟩ | ⟨p, hp, hc, rfl⟩
    · have hsome := mem_live_isSome hinfo
      rw [liveSummary_name] at hname
      rw [hname, hnone] at hsome
      exact Bool.noConfusion hsome
    · rw [persistedSummary_name] at hname
      exact ⟨rfl, List.mem_map.mpr ⟨p, hp, hname⟩⟩

/-- Tmux rows holding one matching and one non-matching name, used as
concrete input. -/
def rowsCW10 : List TmuxRaw :=
  [{ name := "konsolai-Default-a1b2c3d4" }, { name := "plain" }]

/-- Registry state whose live source is `rowsCW10` and whose persisted
store holds the non-matching name, used as concrete input. -/
def rCW10 : RegistryState :=
  { persisted := [("plain", [("state", Json.str "Idle")])],
    tmuxRows := rowsCW10, stateCache := [] }

/-- C10 witness: the matching live row has the extracted non-empty profile
and 8-hex id; the non-matching name appears only as a persisted NotRunning
entry. -/
theorem claim_C10_witness :
    (mkTmuxSessionInfo { name := "konsolai-Default-a1b2c3d4" }).profile ≠ "" ∧
    (mkTmuxSessionInfo { name := "konsolai-Default-a1b2c3d4" }).session_id.length = 8 ∧
    (persistedSummary "plain" [("state", Json.str "Idle")]).state = ClaudeState.notRunning ∧
    "plain" ∈ rCW10.persisted.map (fun p => p.1) := by
  have h1 := (claim_C10 rowsCW10 rCW10).1
    (mkTmuxSessionInfo { name := "konsolai-Default-a1b2c3d4" }) (by decide)
  have h3 := (claim_C10 rowsCW10 rCW10).2.2 "plain" (by decide)
    (persistedSummary "plain" [("state", Json.str "Idle")]) (by decide) (by decide)
  exact ⟨h1.2.1, h1.2.2.1, h3.1, h3.2⟩
